import Mathlib

/-!
Verification of the multi-lot allocation and currency-reconciliation engine
of the stock-utils repository.

Numbers are modelled over the rationals (the spec prescribes exact decimal
arithmetic; machine floats of the source are embedded as their exact values),
dates over the integers (one unit = one calendar day), Python strings over
lists of characters or Lean strings, and fallible operations return Option.
-/

namespace StockUtils

/-- One acquisition lot of a sale transaction (extract_morgan.py, JSON schema
of the extraction prompt): acquisition date, quantity, cost basis per share. -/
structure AcquisitionLot where
  acquisition_date : Int
  quantity : Rat
  cost_basis_per_share : Rat
deriving DecidableEq, Repr

/-- One sale transaction record (extract_morgan.py, JSON schema of the
extraction prompt): the fields used by create_csv. -/
structure TransactionData where
  quantity : Rat
  total_value : Rat
  commission : Rat
  supplemental_fee : Rat
  acquisition_lots : List AcquisitionLot
deriving DecidableEq, Repr

/-- Python's built-in round on a real value: round half to even
(used at extract_morgan.py line 181). -/
def pyRound (x : Rat) : Int :=
  if x - ⌊x⌋ < 1/2 then ⌊x⌋
  else if 1/2 < x - ⌊x⌋ then ⌊x⌋ + 1
  else if ⌊x⌋ % 2 = 0 then ⌊x⌋ else ⌊x⌋ + 1

/-- Apply a function to the last element of a list
(the `acquisition_lots[-1]` update at extract_morgan.py line 187). -/
def mapLast (f : α → α) : List α → List α
  | [] => []
  | [x] => [f x]
  | x :: xs => x :: mapLast f xs

/-- Lot-quantity reconciliation of create_csv (extract_morgan.py lines
172-187): if the lot quantities already sum to the sale quantity, keep the
lots; otherwise rescale every lot quantity by quantity/total with Python
round, then add the residual to the last lot. -/
def reconcileLots (quantity : Rat) (lots : List AcquisitionLot) : List AcquisitionLot :=
  let total := (lots.map (·.quantity)).sum
  if total = quantity then lots
  else
    let adjustment_factor := quantity / total
    let scaled := lots.map (fun l => { l with quantity := (pyRound (l.quantity * adjustment_factor) : Rat) })
    let adjusted_total := (scaled.map (·.quantity)).sum
    if adjusted_total = quantity then scaled
    else mapLast (fun l => { l with quantity := l.quantity + (quantity - adjusted_total) }) scaled

/-- Aggregate transaction costs (extract_morgan.py line 161). -/
def TransactionData.costs (td : TransactionData) : Rat :=
  td.commission + td.supplemental_fee

/-- Aggregate net proceeds (extract_morgan.py line 163). -/
def TransactionData.net_proceeds (td : TransactionData) : Rat :=
  td.total_value - td.costs

/-- The acquisition-rate argument of create_csv: either a single value or a
list, mirroring the isinstance branching at extract_morgan.py lines 228-233. -/
inductive RateInput where
  | single (r : Rat)
  | list (rs : List Rat)
deriving DecidableEq, Repr

/-- Python list subscript semantics: non-negative indices from the front,
negative indices from the back, IndexError (none) when out of range. -/
def pyGet (xs : List α) (k : Int) : Option α :=
  if 0 ≤ k then xs.get? k.toNat
  else if 0 ≤ k + xs.length then xs.get? (k + xs.length).toNat
  else none

/-- The acquisition rate attached to lot index i (extract_morgan.py lines
228-233): a non-list value is used for every lot; a list is subscripted at
min(i, len-1). -/
def rateAt : RateInput → Nat → Option Rat
  | .single r, _ => some r
  | .list rs, i => pyGet rs (min (i : Int) ((rs.length : Int) - 1))

/-- One output row of create_csv (extract_morgan.py lines 242-261),
restricted to the numeric fields the claims are about. -/
structure Row where
  quantity : Rat
  cost_basis_per_share : Rat
  lot_proceeds : Rat
  lot_costs : Rat
  lot_net_proceeds : Rat
  lot_net_proceeds_brl : Rat
  acquisition_rate : Rat
  acquisition_cost_total : Rat
  acquisition_cost_brl : Rat
  lot_profit_usd : Rat
  lot_profit_brl : Rat
deriving DecidableEq, Repr

/-- The per-lot loop of create_csv (extract_morgan.py lines 198-263): walks
the lots carrying the index and the four distributed running sums; every lot
but the last receives aggregate * (lot.quantity / quantity), the last lot
receives aggregate - running_sum; a failed rate subscript aborts (none). -/
def rowsAux (q costs proceeds net netBrl : Rat) (rates : RateInput) :
    Nat → Rat → Rat → Rat → Rat → List AcquisitionLot → Option (List Row)
  | _, _, _, _, _, [] => some []
  | i, dc, dp, dn, dnb, lot :: rest =>
    let lot_proportion := lot.quantity / q
    let lot_costs := if rest = [] then costs - dc else costs * lot_proportion
    let lot_proceeds := if rest = [] then proceeds - dp else proceeds * lot_proportion
    let lot_net := if rest = [] then net - dn else net * lot_proportion
    let lot_net_brl := if rest = [] then netBrl - dnb else netBrl * lot_proportion
    match rateAt rates i with
    | none => none
    | some acquisition_rate =>
      let acquisition_cost_total := lot.quantity * lot.cost_basis_per_share
      let acquisition_cost_brl := acquisition_cost_total * acquisition_rate
      match rowsAux q costs proceeds net netBrl rates (i+1) (dc + lot_costs) (dp + lot_proceeds)
          (dn + lot_net) (dnb + lot_net_brl) rest with
      | none => none
      | some rows =>
        some ({ quantity := lot.quantity, cost_basis_per_share := lot.cost_basis_per_share,
                lot_proceeds := lot_proceeds, lot_costs := lot_costs,
                lot_net_proceeds := lot_net, lot_net_proceeds_brl := lot_net_brl,
                acquisition_rate := acquisition_rate,
                acquisition_cost_total := acquisition_cost_total,
                acquisition_cost_brl := acquisition_cost_brl,
                lot_profit_usd := lot_net - acquisition_cost_total,
                lot_profit_brl := lot_net_brl - acquisition_cost_brl } :: rows)

/-- create_csv's numeric pipeline (extract_morgan.py lines 156-263):
reconcile the lot quantities, then run the per-lot allocation loop with the
four aggregates (costs, gross proceeds, net proceeds, net proceeds in BRL). -/
def createCsvRows (td : TransactionData) (transaction_rate : Rat)
    (acquisition_rates : RateInput) : Option (List Row) :=
  rowsAux td.quantity td.costs td.total_value td.net_proceeds
    (td.net_proceeds * transaction_rate) acquisition_rates 0 0 0 0 0
    (reconcileLots td.quantity td.acquisition_lots)

/-- The spec's description of per-aggregate allocation: every lot but the
last gets aggregate * (lot.quantity / quantity), the last lot gets the
aggregate minus the sum of the previous allocations, and the allocations
sum exactly to the aggregate. -/
def allocatedLike (agg q : Rat) (lots : List AcquisitionLot) (rows : List Row)
    (f : Row → Rat) : Prop :=
  (∀ (j : Nat) (lot : AcquisitionLot) (row : Row), j + 1 < lots.length →
      lots.get? j = some lot → rows.get? j = some row → f row = agg * (lot.quantity / q)) ∧
  (∀ h : rows ≠ [], f (rows.getLast h) = agg - ((rows.dropLast).map f).sum) ∧
  (rows.map f).sum = agg

/-- One day's quotation as returned by the BCB PTAX service
(exchange_rates.py lines 48-56): bid (cotacaoCompra) and ask (cotacaoVenda). -/
structure Quote where
  cotacaoCompra : Rat
  cotacaoVenda : Rat
deriving DecidableEq, Repr

/-- Outcome of one API request for one date (exchange_rates.py lines 41-66):
a transport failure (requests.exceptions.RequestException), an empty value
list (no data for the date), or a quotation. -/
inductive ApiResult where
  | transportError
  | noData
  | found (q : Quote)
deriving DecidableEq, Repr

/-- Python str.lower(), character-wise (ASCII as in the literals used here). -/
def pyLower (s : String) : String := String.mk (s.data.map Char.toLower)

/-- Rate-side selection (exchange_rates.py lines 51-56 and 100-103):
operation_type.lower() equal to "venda" takes cotacaoCompra, anything else
cotacaoVenda. -/
def bcbSelect (q : Quote) (operation_type : String) : Rat :=
  if pyLower operation_type = "venda" then q.cotacaoCompra else q.cotacaoVenda

/-- get_previous_business_day_rate (exchange_rates.py lines 68-111): per
attempt, subtract one day and query it; a quotation is selected and
returned; both a transport failure and a no-data day fall through to the
next attempt; exhausted attempts return None. The external service is the
environment env. -/
def get_previous_business_day_rate (env : Int → ApiResult) (operation_type : String) :
    Int → Nat → Option Rat
  | _, 0 => none
  | date, n + 1 =>
    let previous_date := date - 1
    match env previous_date with
    | .found q => some (bcbSelect q operation_type)
    | _ => get_previous_business_day_rate env operation_type previous_date n

/-- get_exchange_rate_from_bcb (exchange_rates.py lines 21-66): query the
date; a quotation is selected by operation type; no data falls back to
get_previous_business_day_rate with the default max_attempts = 5; a
transport failure returns None. -/
def get_exchange_rate_from_bcb (env : Int → ApiResult) (date : Int)
    (operation_type : String) : Option Rat :=
  match env date with
  | .found q => some (bcbSelect q operation_type)
  | .noData => get_previous_business_day_rate env operation_type date 5
  | .transportError => none

/-- The sale-date rate request of the callers (exchange_rates.py lines
162-169, extract_morgan.py line 143): operation_type "venda". -/
def transactionDateRate (env : Int → ApiResult) (date : Int) : Option Rat :=
  get_exchange_rate_from_bcb env date "venda"

/-- The acquisition-date rate request of the callers (exchange_rates.py
lines 171-178, extract_morgan.py line 149): operation_type "compra". -/
def acquisitionDateRate (env : Int → ApiResult) (date : Int) : Option Rat :=
  get_exchange_rate_from_bcb env date "compra"

/-- The first quotation the environment holds along a list of dates,
skipping transport failures and no-data days. -/
def firstFoundQuote (env : Int → ApiResult) : List Int → Option Quote
  | [] => none
  | d :: ds =>
    match env d with
    | .found q => some q
    | _ => firstFoundQuote env ds

/-- Spec-side description of which quotation a resolution uses: the
requested date's quotation; on no data, the first quotation among the five
preceding days in descending order; on a transport failure, none. -/
def resolvedQuote (env : Int → ApiResult) (date : Int) : Option Quote :=
  match env date with
  | .found q => some q
  | .noData => firstFoundQuote env [date - 1, date - 2, date - 3, date - 4, date - 5]
  | .transportError => none

/-- The n dates preceding date, newest first. -/
def backDates (date : Int) : Nat → List Int
  | 0 => []
  | n + 1 => (date - 1) :: backDates (date - 1) n

/-- Python value.replace("R$", "") on a character list: non-overlapping
left-to-right removal of the two-character pattern
(convert_to_bastter.py line 25). -/
def removeRS : List Char → List Char
  | [] => []
  | 'R' :: '$' :: rest => removeRS rest
  | c :: rest => c :: removeRS rest

/-- Python str.strip(): drop leading and trailing whitespace
(convert_to_bastter.py line 25). -/
def pyStrip (l : List Char) : List Char :=
  ((l.dropWhile Char.isWhitespace).reverse.dropWhile Char.isWhitespace).reverse

/-- The cleaned monetary string (convert_to_bastter.py line 25): quotes
removed, "R$" removed, surrounding whitespace stripped. -/
def cleanedMoney (cs : List Char) : List Char :=
  pyStrip (removeRS (cs.filter (fun c => c ≠ '"')))

/-- The single-character replace(",", ".") as a character map
(convert_to_bastter.py line 30). -/
def commaToDot (c : Char) : Char := if c = ',' then '.' else c

/-- The separator normalization of convert_to_float (convert_to_bastter.py
lines 23-30): clean the string; when it holds both a dot and a comma remove
the dots (thousands separators); then turn every comma into a dot. -/
def normalizeMoney (cs : List Char) : List Char :=
  let v := cleanedMoney cs
  let v2 := if ('.' ∈ v ∧ ',' ∈ v) then v.filter (fun c => c ≠ '.') else v
  v2.map commaToDot

/-- convert_to_float (convert_to_bastter.py lines 21-34) on a string input.
Python's float() builtin is external and is modelled by the parameter
pyFloat, its parse failure (exception) by none; the except branch returns
0.0. -/
def convert_to_float (pyFloat : List Char → Option Rat) (cs : List Char) : Rat :=
  (pyFloat (normalizeMoney cs)).getD 0

example : pyRound (5/2) = 2 := by norm_num [pyRound]

example : pyRound (7/2) = 4 := by norm_num [pyRound]

example : pyRound (10/19) = 1 := by norm_num [pyRound]

example : pyRound (-1/2) = 0 := by norm_num [pyRound]

lemma mapLast_quantity_sum (d : Rat) :
    ∀ ls : List AcquisitionLot, ls ≠ [] →
      ((mapLast (fun l => { l with quantity := l.quantity + d }) ls).map (·.quantity)).sum
        = (ls.map (·.quantity)).sum + d
  | [], h => absurd rfl h
  | [x], _ => by simp [mapLast]
  | x :: y :: tl, _ => by
      have ih := mapLast_quantity_sum d (y :: tl) (by simp)
      simp only [mapLast, List.map_cons, List.sum_cons] at ih ⊢
      rw [ih]; ring

/-- Claim C2: for every sale quantity and every non-empty lot list with positive
total quantity, reconciliation yields lot quantities summing exactly to the
sale quantity. -/
theorem reconcileLots_sum_eq (q : Rat) (lots : List AcquisitionLot)
    (hne : lots ≠ []) (hpos : 0 < (lots.map (·.quantity)).sum) :
    ((reconcileLots q lots).map (·.quantity)).sum = q := by
  rw [reconcileLots]
  split_ifs with h1
  · exact h1
  · dsimp only
    split_ifs with h2
    · exact h2
    · rw [mapLast_quantity_sum]
      · ring
      · simpa using hne

/-- Claim C2 witness: a concrete mismatched record (quantity 100, lots 60 and 50)
reconciles to quantities summing exactly to 100. -/
theorem reconcileLots_sum_eq_witness :
    (⟨0, 60, 0⟩ :: [⟨0, 50, 0⟩] : List AcquisitionLot) ≠ [] ∧
      (0:Rat) < ((( ⟨0, 60, 0⟩ :: [⟨0, 50, 0⟩] : List AcquisitionLot)).map (·.quantity)).sum ∧
      ((reconcileLots 100 (⟨0, 60, 0⟩ :: [⟨0, 50, 0⟩])).map (·.quantity)).sum = 100 := by
  refine ⟨by simp, by norm_num, reconcileLots_sum_eq 100 _ (by simp) (by norm_num)⟩

set_option maxRecDepth 100000 in

/-- Claim C3: non-negativity of reconciled lot quantities is not guaranteed: for
sale quantity 3 and five lots of quantity 1 each, the rescale-and-absorb
reconciliation drives the last lot's quantity to -1. -/
theorem reconcileLots_last_can_be_negative :
    ∃ (q : Rat) (lots : List AcquisitionLot),
      0 < q ∧ lots ≠ [] ∧ (∀ l ∈ lots, 0 < l.quantity) ∧
        ∃ v, ((reconcileLots q lots).map (·.quantity)).getLast? = some v ∧ v < 0 := by
  refine ⟨3, [⟨0, 1, 0⟩, ⟨0, 1, 0⟩, ⟨0, 1, 0⟩, ⟨0, 1, 0⟩, ⟨0, 1, 0⟩], by norm_num, by simp,
    ?_, -1, ?_, by norm_num⟩
  · intro l hl
    simp only [List.mem_cons, List.not_mem_nil, or_false] at hl
    rcases hl with h | h | h | h | h <;> (subst h; norm_num)
  · have hround : pyRound (1 * (3 / 5 : Rat)) = 1 := by norm_num [pyRound, Int.fract]
    have h15 : (1:Rat) + (1 + (1 + (1 + 1))) = 5 := by norm_num
    simp only [reconcileLots, List.map_cons, List.map_nil, List.sum_cons, List.sum_nil,
      add_zero, h15, hround, Int.cast_one]
    norm_num [mapLast, List.getLast?_cons_cons]

lemma rowsAux_nil (q c p n nb : Rat) (rates : RateInput) (i : Nat) (dc dp dn dnb : Rat) :
    rowsAux q c p n nb rates i dc dp dn dnb [] = some [] := rfl

lemma rowsAux_sum (q c p n nb : Rat) (rates : RateInput) :
    ∀ (lots : List AcquisitionLot) (i : Nat) (dc dp dn dnb : Rat) (rows : List Row),
      lots ≠ [] → rowsAux q c p n nb rates i dc dp dn dnb lots = some rows →
        (rows.map (·.lot_costs)).sum = c - dc ∧
          (rows.map (·.lot_proceeds)).sum = p - dp ∧
          (rows.map (·.lot_net_proceeds)).sum = n - dn ∧
          (rows.map (·.lot_net_proceeds_brl)).sum = nb - dnb
  | [], _, _, _, _, _, _, h, _ => absurd rfl h
  | [lot], i, dc, dp, dn, dnb, rows, _, heq => by
      rw [rowsAux] at heq
      cases hr : rateAt rates i with
      | none => simp [hr] at heq
      | some ar =>
        simp only [hr, rowsAux_nil, Option.some.injEq] at heq
        obtain rfl := heq
        refine ⟨?_, ?_, ?_, ?_⟩ <;> simp <;> ring
  | lot :: lot2 :: tl, i, dc, dp, dn, dnb, rows, _, heq => by
      rw [rowsAux] at heq
      cases hr : rateAt rates i with
      | none => simp [hr] at heq
      | some ar =>
        cases hrec : rowsAux q c p n nb rates (i+1) (dc + c * (lot.quantity / q))
            (dp + p * (lot.quantity / q)) (dn + n * (lot.quantity / q))
            (dnb + nb * (lot.quantity / q)) (lot2 :: tl) with
        | none => simp [hr, hrec] at heq
        | some rows2 =>
          have ih := rowsAux_sum q c p n nb rates (lot2 :: tl) (i+1)
            (dc + c * (lot.quantity / q)) (dp + p * (lot.quantity / q))
            (dn + n * (lot.quantity / q)) (dnb + nb * (lot.quantity / q)) rows2
            (by simp) hrec
          simp only [List.cons_ne_nil, if_false, ite_false, hr, hrec, Option.some.injEq] at heq
          obtain rfl := heq
          obtain ⟨ih1, ih2, ih3, ih4⟩ := ih
          refine ⟨?_, ?_, ?_, ?_⟩ <;>
            simp only [List.map_cons, List.sum_cons, ih1, ih2, ih3, ih4] <;> ring

lemma rowsAux_length (q c p n nb : Rat) (rates : RateInput) :
    ∀ (lots : List AcquisitionLot) (i : Nat) (dc dp dn dnb : Rat) (rows : List Row),
      rowsAux q c p n nb rates i dc dp dn dnb lots = some rows →
        rows.length = lots.length
  | [], _, _, _, _, _, rows, heq => by
      rw [rowsAux_nil] at heq
      obtain rfl := Option.some.inj heq
      rfl
  | lot :: rest, i, dc, dp, dn, dnb, rows, heq => by
      rw [rowsAux] at heq
      cases hr : rateAt rates i with
      | none => simp [hr] at heq
      | some ar =>
        rw [hr] at heq
        cases hrec : rowsAux q c p n nb rates (i+1)
            (dc + if rest = [] then c - dc else c * (lot.quantity / q))
            (dp + if rest = [] then p - dp else p * (lot.quantity / q))
            (dn + if rest = [] then n - dn else n * (lot.quantity / q))
            (dnb + if rest = [] then nb - dnb else nb * (lot.quantity / q)) rest with
        | none => rw [hrec] at heq; exact absurd heq (by simp)
        | some rows2 =>
          have ih := rowsAux_length q c p n nb rates rest (i+1) _ _ _ _ rows2 hrec
          rw [hrec] at heq
          obtain rfl := Option.some.inj heq
          simp [ih]

lemma rowsAux_get (q c p n nb : Rat) (rates : RateInput) :
    ∀ (lots : List AcquisitionLot) (i : Nat) (dc dp dn dnb : Rat) (rows : List Row),
      rowsAux q c p n nb rates i dc dp dn dnb lots = some rows →
        ∀ (j : Nat) (lot : AcquisitionLot) (row : Row),
          lots.get? j = some lot → rows.get? j = some row →
            rateAt rates (i + j) = some row.acquisition_rate ∧
            row.quantity = lot.quantity ∧
            row.cost_basis_per_share = lot.cost_basis_per_share ∧
            row.acquisition_cost_total = lot.quantity * lot.cost_basis_per_share ∧
            row.acquisition_cost_brl = row.acquisition_cost_total * row.acquisition_rate ∧
            row.lot_profit_usd = row.lot_net_proceeds - row.acquisition_cost_total ∧
            row.lot_profit_brl = row.lot_net_proceeds_brl - row.acquisition_cost_brl ∧
            (j + 1 < lots.length →
              row.lot_costs = c * (lot.quantity / q) ∧
              row.lot_proceeds = p * (lot.quantity / q) ∧
              row.lot_net_proceeds = n * (lot.quantity / q) ∧
              row.lot_net_proceeds_brl = nb * (lot.quantity / q))
  | [], _, _, _, _, _, _, _, j, _, _, hlot, _ => by simp at hlot
  | lot0 :: rest, i, dc, dp, dn, dnb, rows, heq, j, lot, row, hlot, hrow => by
      rw [rowsAux] at heq
      cases hr : rateAt rates i with
      | none => simp [hr] at heq
      | some ar =>
        rw [hr] at heq
        cases hrec : rowsAux q c p n nb rates (i+1)
            (dc + if rest = [] then c - dc else c * (lot0.quantity / q))
            (dp + if rest = [] then p - dp else p * (lot0.quantity / q))
            (dn + if rest = [] then n - dn else n * (lot0.quantity / q))
            (dnb + if rest = [] then nb - dnb else nb * (lot0.quantity / q)) rest with
        | none => rw [hrec] at heq; exact absurd heq (by simp)
        | some rows2 =>
          rw [hrec] at heq
          obtain rfl := Option.some.inj heq
          match j, hlot, hrow with
          | 0, hlot, hrow =>
            obtain rfl := Option.some.inj hlot
            obtain rfl := Option.some.inj hrow
            refine ⟨by simpa using hr, rfl, rfl, rfl, rfl, rfl, rfl, ?_⟩
            intro hj
            have hrest : rest ≠ [] := by
              intro h
              rw [h] at hj
              simp at hj
            simp [hrest]
          | j' + 1, hlot, hrow =>
            have ih := rowsAux_get q c p n nb rates rest (i+1) _ _ _ _ rows2 hrec j' lot row
              (by simpa using hlot) (by simpa using hrow)
            refine ⟨?_, ih.2.1, ih.2.2.1, ih.2.2.2.1, ih.2.2.2.2.1, ih.2.2.2.2.2.1,
              ih.2.2.2.2.2.2.1, ?_⟩
            · have : i + (j' + 1) = i + 1 + j' := by omega
              rw [this]
              exact ih.1
            · intro hj
              exact ih.2.2.2.2.2.2.2 (by simpa using Nat.lt_of_succ_lt_succ (by simpa using hj))

lemma reconcileLots_of_sum_eq (q : Rat) (lots : List AcquisitionLot)
    (hsum : (lots.map (·.quantity)).sum = q) : reconcileLots q lots = lots := by
  simp only [reconcileLots]
  rw [if_pos hsum]

lemma getLast_map_sum {α : Type} (f : α → Rat) (l : List α) (agg : Rat)
    (hsum : (l.map f).sum = agg) (h : l ≠ []) :
    f (l.getLast h) = agg - ((l.dropLast).map f).sum := by
  have hdecomp := List.dropLast_append_getLast h
  have hs : ((l.dropLast).map f).sum + f (l.getLast h) = (l.map f).sum := by
    conv_rhs => rw [← hdecomp]
    simp
  rw [hsum] at hs
  linarith

/-- Claim C1: on a record whose N >= 1 lot quantities sum to the sale quantity,
create_csv allocates each of the four aggregates (costs, gross proceeds, net
proceeds, net proceeds in BRL) proportionally over all lots but the last,
gives the last lot the aggregate minus the running sum of the previous
allocations, and each aggregate's allocations sum exactly to it. -/
theorem createCsvRows_allocates (td : TransactionData) (tr : Rat) (ar : RateInput)
    (rows : List Row)
    (hne : td.acquisition_lots ≠ [])
    (hq : 0 < td.quantity)
    (hsum : (td.acquisition_lots.map (·.quantity)).sum = td.quantity)
    (hrows : createCsvRows td tr ar = some rows) :
    rows.length = td.acquisition_lots.length ∧
      allocatedLike td.costs td.quantity td.acquisition_lots rows (·.lot_costs) ∧
      allocatedLike td.total_value td.quantity td.acquisition_lots rows (·.lot_proceeds) ∧
      allocatedLike td.net_proceeds td.quantity td.acquisition_lots rows (·.lot_net_proceeds) ∧
      allocatedLike (td.net_proceeds * tr) td.quantity td.acquisition_lots rows
        (·.lot_net_proceeds_brl) := by
  rw [createCsvRows, reconcileLots_of_sum_eq _ _ hsum] at hrows
  have hlen := rowsAux_length _ _ _ _ _ _ _ _ _ _ _ _ _ hrows
  have hsums := rowsAux_sum _ _ _ _ _ _ _ _ _ _ _ _ _ hne hrows
  rw [sub_zero, sub_zero, sub_zero, sub_zero] at hsums
  have hget := rowsAux_get _ _ _ _ _ _ _ _ _ _ _ _ _ hrows
  refine ⟨hlen, ?_, ?_, ?_, ?_⟩ <;>
    refine ⟨?_, ?_, ?_⟩
  · intro j lot row hj hlot hrow
    exact ((hget j lot row hlot hrow).2.2.2.2.2.2.2 hj).1
  · intro h
    exact getLast_map_sum _ _ _ hsums.1 h
  · exact hsums.1
  · intro j lot row hj hlot hrow
    exact ((hget j lot row hlot hrow).2.2.2.2.2.2.2 hj).2.1
  · intro h
    exact getLast_map_sum _ _ _ hsums.2.1 h
  · exact hsums.2.1
  · intro j lot row hj hlot hrow
    exact ((hget j lot row hlot hrow).2.2.2.2.2.2.2 hj).2.2.1
  · intro h
    exact getLast_map_sum _ _ _ hsums.2.2.1 h
  · exact hsums.2.2.1
  · intro j lot row hj hlot hrow
    exact ((hget j lot row hlot hrow).2.2.2.2.2.2.2 hj).2.2.2
  · intro h
    exact getLast_map_sum _ _ _ hsums.2.2.2 h
  · exact hsums.2.2.2

/-- Claim C1 witness: a concrete two-lot record (quantity 10, lots 4 and 6,
proceeds 100, costs 2+3, sale rate 2, acquisition rate 3) satisfies the
allocation theorem's hypotheses and conclusion. -/
theorem createCsvRows_allocates_witness :
    ∃ rows, createCsvRows ⟨10, 100, 2, 3, [⟨0, 4, 5⟩, ⟨0, 6, 7⟩]⟩ 2 (.single 3) = some rows ∧
      (rows.length = ([⟨0, 4, 5⟩, ⟨0, 6, 7⟩] : List AcquisitionLot).length ∧
        allocatedLike (TransactionData.costs ⟨10, 100, 2, 3, [⟨0, 4, 5⟩, ⟨0, 6, 7⟩]⟩) 10
          [⟨0, 4, 5⟩, ⟨0, 6, 7⟩] rows (·.lot_costs) ∧
        allocatedLike 100 10 [⟨0, 4, 5⟩, ⟨0, 6, 7⟩] rows (·.lot_proceeds) ∧
        allocatedLike (TransactionData.net_proceeds ⟨10, 100, 2, 3, [⟨0, 4, 5⟩, ⟨0, 6, 7⟩]⟩) 10
          [⟨0, 4, 5⟩, ⟨0, 6, 7⟩] rows (·.lot_net_proceeds) ∧
        allocatedLike (TransactionData.net_proceeds ⟨10, 100, 2, 3, [⟨0, 4, 5⟩, ⟨0, 6, 7⟩]⟩ * 2) 10
          [⟨0, 4, 5⟩, ⟨0, 6, 7⟩] rows (·.lot_net_proceeds_brl)) := by
  have hrows : createCsvRows ⟨10, 100, 2, 3, [⟨0, 4, 5⟩, ⟨0, 6, 7⟩]⟩ 2 (.single 3) =
      some [⟨4, 5, 40, 2, 38, 76, 3, 20, 60, 18, 16⟩, ⟨6, 7, 60, 3, 57, 114, 3, 42, 126, 15, -12⟩] := by
    norm_num [createCsvRows, reconcileLots, rowsAux, rateAt, TransactionData.costs,
      TransactionData.net_proceeds]
  exact ⟨_, hrows, createCsvRows_allocates _ 2 (.single 3) _ (by simp) (by norm_num)
    (by norm_num [TransactionData.costs]) hrows⟩

lemma get_previous_business_day_rate_eq (env : Int → ApiResult) (op : String) :
    ∀ (n : Nat) (date : Int),
      get_previous_business_day_rate env op date n
        = (firstFoundQuote env (backDates date n)).map (fun q => bcbSelect q op)
  | 0, date => by simp [get_previous_business_day_rate, backDates, firstFoundQuote]
  | n + 1, date => by
      have ih := get_previous_business_day_rate_eq env op n (date - 1)
      cases henv : env (date - 1) <;>
        simp [get_previous_business_day_rate, backDates, firstFoundQuote, henv, ih]

lemma backDates_five (date : Int) :
    backDates date 5 = [date - 1, date - 2, date - 3, date - 4, date - 5] := by
  simp [backDates]
  omega

/-- Claim C4: rate-side selection is a pure function of the operation type: the
sale-date request always yields the resolved quotation's bid (cotacaoCompra)
and the acquisition-date request always yields its ask (cotacaoVenda),
whatever the environment and the date. -/
theorem rate_side_selection (env : Int → ApiResult) (date : Int) :
    transactionDateRate env date = (resolvedQuote env date).map (·.cotacaoCompra) ∧
      acquisitionDateRate env date = (resolvedQuote env date).map (·.cotacaoVenda) := by
  have hvenda : (pyLower "venda" = "venda") := by decide
  have hcompra : ¬(pyLower "compra" = "venda") := by decide
  constructor <;>
    cases henv : env date <;>
      simp [transactionDateRate, acquisitionDateRate, get_exchange_rate_from_bcb,
        resolvedQuote, henv, get_previous_business_day_rate_eq, backDates_five,
        bcbSelect, hvenda, hcompra] <;>
      cases hq : firstFoundQuote env [date - 1, date - 2, date - 3, date - 4, date - 5] <;>
        simp [hq, bcbSelect, hvenda, hcompra]

/-- Claim C5: when the environment has no data for the requested date, the
resolver walks back one calendar day per attempt over exactly the five
preceding dates in descending order, returns the first rate found there,
and returns None when all five are exhausted without a quotation. -/
theorem backoff_five_days (env : Int → ApiResult) (date : Int) (op : String)
    (h : env date = .noData) :
    get_exchange_rate_from_bcb env date op
      = (firstFoundQuote env [date - 1, date - 2, date - 3, date - 4, date - 5]).map
          (fun q => bcbSelect q op) := by
  rw [get_exchange_rate_from_bcb, h, get_previous_business_day_rate_eq, backDates_five]

/-- Claim C5 witness: for an environment with data only on day 7, requesting day
10 walks back and resolves via the five preceding days. -/
theorem backoff_five_days_witness :
    (fun d : Int => if d = 7 then ApiResult.found ⟨3, 4⟩ else .noData) 10 = .noData ∧
      get_exchange_rate_from_bcb (fun d : Int => if d = 7 then ApiResult.found ⟨3, 4⟩ else .noData)
          10 "venda"
        = (firstFoundQuote (fun d : Int => if d = 7 then ApiResult.found ⟨3, 4⟩ else .noData)
            [10 - 1, 10 - 2, 10 - 3, 10 - 4, 10 - 5]).map (fun q => bcbSelect q "venda") :=
  ⟨by norm_num, backoff_five_days _ 10 "venda" (by norm_num)⟩

/-- Claim C6 counterexample: with no data on day 10, a transport failure on day 9
and a quotation (bid 3, ask 4) on day 8, the resolution does NOT abort at
the transport failure: it keeps walking and returns the day-8 bid. -/
theorem transport_failure_does_not_abort_walk :
    (fun d : Int => if d = 8 then ApiResult.found ⟨3, 4⟩
        else if d = 9 then .transportError else .noData) 10 = .noData ∧
      (fun d : Int => if d = 8 then ApiResult.found ⟨3, 4⟩
        else if d = 9 then .transportError else .noData) 9 = .transportError ∧
      get_exchange_rate_from_bcb (fun d : Int => if d = 8 then ApiResult.found ⟨3, 4⟩
        else if d = 9 then .transportError else .noData) 10 "venda" = some 3 := by
  have hvenda : (pyLower "venda" = "venda") := by decide
  refine ⟨by norm_num, by norm_num, ?_⟩
  rw [get_exchange_rate_from_bcb]
  norm_num
  rw [get_previous_business_day_rate]
  norm_num
  rw [get_previous_business_day_rate]
  norm_num [bcbSelect, hvenda]

/-- Claim C6 amended: a transport failure on the requested date itself aborts the
resolution with None (the same value as exhausted-not-found); only no data
on the requested date enters the five-day back-walk; and inside the walk a
transport failure does not abort but is skipped exactly like a no-data day,
consuming one attempt. -/
theorem transport_failure_handling (env : Int → ApiResult) (date : Int) (op : String) :
    (env date = .transportError → get_exchange_rate_from_bcb env date op = none) ∧
      (env date = .noData → get_exchange_rate_from_bcb env date op
          = get_previous_business_day_rate env op date 5) ∧
      (∀ n : Nat, env (date - 1) = .transportError →
          get_previous_business_day_rate env op date (n + 1)
            = get_previous_business_day_rate env op (date - 1) n) ∧
      (∀ n : Nat, env (date - 1) = .noData →
          get_previous_business_day_rate env op date (n + 1)
            = get_previous_business_day_rate env op (date - 1) n) := by
  refine ⟨fun h => ?_, fun h => ?_, fun n h => ?_, fun n h => ?_⟩
  · rw [get_exchange_rate_from_bcb, h]
  · rw [get_exchange_rate_from_bcb, h]
  · rw [get_previous_business_day_rate, h]
  · rw [get_previous_business_day_rate, h]

/-- Claim C6 amended witness: concrete environments exercising the three
behaviours (initial transport failure aborts; initial no data enters the
walk; a transport failure and a no-data day inside the walk are skipped). -/
theorem transport_failure_handling_witness :
    get_exchange_rate_from_bcb (fun _ : Int => ApiResult.transportError) 10 "venda" = none ∧
      get_exchange_rate_from_bcb (fun d : Int => if d = 8 then ApiResult.found ⟨3, 4⟩
          else if d = 9 then .transportError else .noData) 10 "venda"
        = get_previous_business_day_rate (fun d : Int => if d = 8 then ApiResult.found ⟨3, 4⟩
          else if d = 9 then .transportError else .noData) "venda" 10 5 ∧
      get_previous_business_day_rate (fun d : Int => if d = 8 then ApiResult.found ⟨3, 4⟩
          else if d = 9 then .transportError else .noData) "venda" 10 5
        = get_previous_business_day_rate (fun d : Int => if d = 8 then ApiResult.found ⟨3, 4⟩
          else if d = 9 then .transportError else .noData) "venda" (10 - 1) 4 ∧
      get_previous_business_day_rate (fun d : Int => if d = 7 then ApiResult.found ⟨3, 4⟩
          else .noData) "venda" 10 5
        = get_previous_business_day_rate (fun d : Int => if d = 7 then ApiResult.found ⟨3, 4⟩
          else .noData) "venda" (10 - 1) 4 :=
  ⟨(transport_failure_handling _ 10 "venda").1 rfl,
    (transport_failure_handling _ 10 "venda").2.1 (by norm_num),
    (transport_failure_handling _ 10 "venda").2.2.1 4 (by norm_num),
    (transport_failure_handling _ 10 "venda").2.2.2 4 (by norm_num)⟩

/-- Claim C7: for every lot, create_csv computes acquisition_cost_total as
quantity * cost_basis_per_share, converts it to the settlement currency at
that lot's own acquisition rate (the rate attached for the lot's index, not
the sale-date rate), and takes the two profits as the allocated net
proceeds minus the acquisition cost in the matching currency. -/
theorem createCsvRows_profit (td : TransactionData) (tr : Rat) (ar : RateInput)
    (rows : List Row)
    (hsum : (td.acquisition_lots.map (·.quantity)).sum = td.quantity)
    (hrows : createCsvRows td tr ar = some rows) :
    ∀ (j : Nat) (lot : AcquisitionLot) (row : Row),
      td.acquisition_lots.get? j = some lot → rows.get? j = some row →
        row.acquisition_cost_total = lot.quantity * lot.cost_basis_per_share ∧
          rateAt ar j = some row.acquisition_rate ∧
          row.acquisition_cost_brl = row.acquisition_cost_total * row.acquisition_rate ∧
          row.lot_profit_usd = row.lot_net_proceeds - row.acquisition_cost_total ∧
          row.lot_profit_brl = row.lot_net_proceeds_brl - row.acquisition_cost_brl := by
  rw [createCsvRows, reconcileLots_of_sum_eq _ _ hsum] at hrows
  intro j lot row hlot hrow
  have h := rowsAux_get _ _ _ _ _ _ _ _ _ _ _ _ _ hrows j lot row hlot hrow
  exact ⟨h.2.2.2.1, by simpa using h.1, h.2.2.2.2.1, h.2.2.2.2.2.1, h.2.2.2.2.2.2.1⟩

/-- Claim C7 witness: the profit equations checked on the first lot of a concrete
two-lot record. -/
theorem createCsvRows_profit_witness :
    ∃ row : Row,
      createCsvRows ⟨10, 100, 2, 3, [⟨0, 4, 5⟩, ⟨0, 6, 7⟩]⟩ 2 (.single 3)
          = some [⟨4, 5, 40, 2, 38, 76, 3, 20, 60, 18, 16⟩, ⟨6, 7, 60, 3, 57, 114, 3, 42, 126, 15, -12⟩] ∧
        row = ⟨4, 5, 40, 2, 38, 76, 3, 20, 60, 18, 16⟩ ∧
        (row.acquisition_cost_total = (4 : Rat) * 5 ∧
          rateAt (.single 3) 0 = some row.acquisition_rate ∧
          row.acquisition_cost_brl = row.acquisition_cost_total * row.acquisition_rate ∧
          row.lot_profit_usd = row.lot_net_proceeds - row.acquisition_cost_total ∧
          row.lot_profit_brl = row.lot_net_proceeds_brl - row.acquisition_cost_brl) := by
  have hrows : createCsvRows ⟨10, 100, 2, 3, [⟨0, 4, 5⟩, ⟨0, 6, 7⟩]⟩ 2 (.single 3) =
      some [⟨4, 5, 40, 2, 38, 76, 3, 20, 60, 18, 16⟩, ⟨6, 7, 60, 3, 57, 114, 3, 42, 126, 15, -12⟩] := by
    norm_num [createCsvRows, reconcileLots, rowsAux, rateAt, TransactionData.costs,
      TransactionData.net_proceeds]
  exact ⟨_, hrows, rfl,
    createCsvRows_profit _ 2 (.single 3) _ (by norm_num) hrows 0 ⟨0, 4, 5⟩ _ rfl rfl⟩

/-- Claim C9: the allocator is idempotent: rerunning create_csv on the record
whose aggregate inputs are re-derived from the first run's per-lot outputs
(proceeds := sum of allocated proceeds, costs := sum of allocated costs)
reproduces exactly the same rows. -/
theorem createCsvRows_idempotent (td : TransactionData) (tr : Rat) (ar : RateInput)
    (rows : List Row)
    (hne : td.acquisition_lots ≠ [])
    (hsum : (td.acquisition_lots.map (·.quantity)).sum = td.quantity)
    (hrows : createCsvRows td tr ar = some rows) :
    createCsvRows
        { td with total_value := (rows.map (·.lot_proceeds)).sum,
                  commission := (rows.map (·.lot_costs)).sum,
                  supplemental_fee := 0 } tr ar = some rows := by
  rw [createCsvRows, reconcileLots_of_sum_eq _ _ hsum] at hrows
  have hsums := rowsAux_sum _ _ _ _ _ _ _ _ _ _ _ _ _ hne hrows
  rw [sub_zero, sub_zero, sub_zero, sub_zero] at hsums
  rw [createCsvRows]
  dsimp only
  rw [reconcileLots_of_sum_eq _ _ hsum]
  simp only [TransactionData.costs, TransactionData.net_proceeds, TransactionData.total_value,
    add_zero, hsums.1, hsums.2.1]
  exact hrows

/-- Claim C9 witness: idempotence checked on a concrete two-lot record. -/
theorem createCsvRows_idempotent_witness :
    createCsvRows
        { (⟨10, 100, 2, 3, [⟨0, 4, 5⟩, ⟨0, 6, 7⟩]⟩ : TransactionData) with
          total_value := (([⟨4, 5, 40, 2, 38, 76, 3, 20, 60, 18, 16⟩,
              ⟨6, 7, 60, 3, 57, 114, 3, 42, 126, 15, -12⟩] : List Row).map (·.lot_proceeds)).sum,
          commission := (([⟨4, 5, 40, 2, 38, 76, 3, 20, 60, 18, 16⟩,
              ⟨6, 7, 60, 3, 57, 114, 3, 42, 126, 15, -12⟩] : List Row).map (·.lot_costs)).sum,
          supplemental_fee := 0 } 2 (.single 3)
      = some [⟨4, 5, 40, 2, 38, 76, 3, 20, 60, 18, 16⟩,
          ⟨6, 7, 60, 3, 57, 114, 3, 42, 126, 15, -12⟩] := by
  have hrows : createCsvRows ⟨10, 100, 2, 3, [⟨0, 4, 5⟩, ⟨0, 6, 7⟩]⟩ 2 (.single 3) =
      some [⟨4, 5, 40, 2, 38, 76, 3, 20, 60, 18, 16⟩, ⟨6, 7, 60, 3, 57, 114, 3, 42, 126, 15, -12⟩] := by
    norm_num [createCsvRows, reconcileLots, rowsAux, rateAt, TransactionData.costs,
      TransactionData.net_proceeds]
  exact createCsvRows_idempotent _ 2 (.single 3) _ (by simp) (by norm_num) hrows

/-- Claim C10: acquisition-rate attachment is total and clamps the index: a
non-list rate input gives every lot that single value; a non-empty list
gives lot i entry min(i, len-1), never out of range, with every excess lot
reusing the last rate. -/
theorem rateAt_total_and_clamps (r : Rat) (rs : List Rat) (i : Nat) (hne : rs ≠ []) :
    rateAt (.single r) i = some r ∧
      rateAt (.list rs) i = rs.get? (min i (rs.length - 1)) ∧
      (rateAt (.list rs) i).isSome ∧
      (rs.length ≤ i → rateAt (.list rs) i = rs.getLast?) := by
  have hlen : 1 ≤ rs.length := List.length_pos.mpr hne
  have hidx : (min (i : Int) ((rs.length : Int) - 1)).toNat = min i (rs.length - 1) := by
    rcases le_total i (rs.length - 1) with h | h
    · rw [Nat.min_eq_left h, min_eq_left (by omega : (i : Int) ≤ (rs.length : Int) - 1)]
      omega
    · rw [Nat.min_eq_right h, min_eq_right (by omega : ((rs.length : Int) - 1) ≤ (i : Int))]
      omega
  have hmain : rateAt (.list rs) i = rs.get? (min i (rs.length - 1)) := by
    rw [rateAt, pyGet, if_pos (by omega : (0 : Int) ≤ min (i : Int) ((rs.length : Int) - 1)), hidx]
  refine ⟨rfl, hmain, ?_, fun hle => ?_⟩
  · rw [hmain, List.get?_eq_get (by omega : min i (rs.length - 1) < rs.length)]
    rfl
  · rw [hmain, Nat.min_eq_right (by omega : rs.length - 1 ≤ i), List.getLast?_eq_get?]

/-- Claim C10 witness: a two-entry rate list with lot index 5 past the end reuses
the last rate, and a single rate is attached unchanged. -/
theorem rateAt_total_and_clamps_witness :
    ([5, 7] : List Rat) ≠ [] ∧
      rateAt (.single 9) 5 = some 9 ∧
      rateAt (.list [5, 7]) 5 = ([5, 7] : List Rat).get? (min 5 (([5, 7] : List Rat).length - 1)) ∧
      (rateAt (.list [5, 7]) 5).isSome ∧
      (([5, 7] : List Rat).length ≤ 5 → rateAt (.list [5, 7]) 5 = ([5, 7] : List Rat).getLast?) := by
  have h := rateAt_total_and_clamps 9 [5, 7] 5 (by simp)
  exact ⟨by simp, h.1, h.2.1, h.2.2.1, h.2.2.2⟩

lemma comma_not_mem_map_commaToDot (l : List Char) : ',' ∉ l.map commaToDot := by
  intro hmem
  obtain ⟨c, _, hc⟩ := List.mem_map.mp hmem
  by_cases h : c = ','
  · rw [h] at hc
    simp [commaToDot] at hc
  · rw [commaToDot, if_neg h] at hc
    exact h hc

lemma count_dot_map_commaToDot : ∀ l : List Char,
    (l.map commaToDot).count '.' = l.count ',' + l.count '.'
  | [] => rfl
  | c :: t => by
      have ih := count_dot_map_commaToDot t
      by_cases h1 : c = ','
      · subst h1
        simp [commaToDot, List.count_cons, ih]
        omega
      · by_cases h2 : c = '.'
        · subst h2
          have hcd : commaToDot '.' = '.' := by simp [commaToDot]
          simp [List.count_cons, hcd, ih, h1]
          omega
        · have hcd : commaToDot c = c := by simp [commaToDot, h1]
          simp [List.count_cons, hcd, ih, h1, h2]

lemma count_comma_filter_ne_dot : ∀ l : List Char,
    (l.filter (fun c => c ≠ '.')).count ',' = l.count ','
  | [] => rfl
  | c :: t => by
      have ih := count_comma_filter_ne_dot t
      by_cases h2 : c = '.'
      · subst h2
        simp [List.filter_cons, List.count_cons, ih]
      · simp [List.filter_cons, List.count_cons, ih, h2]

lemma count_dot_filter_ne_dot : ∀ l : List Char,
    (l.filter (fun c => c ≠ '.')).count '.' = 0
  | [] => rfl
  | c :: t => by
      have ih := count_dot_filter_ne_dot t
      simp only [ne_eq, decide_not] at ih ⊢
      by_cases h2 : c = '.'
      · subst h2
        simp [List.filter_cons, ih]
      · simp [List.filter_cons, List.count_cons, ih, h2]

/-- Claim C8: the monetary parser treats a string holding both a dot and a comma
by removing the dots and turning the comma into the decimal point (every
resulting dot comes from an original comma), treats a comma in a dot-free
string as the decimal separator, and on any parse failure returns 0.0
instead of raising. -/
theorem convert_to_float_spec (pyFloat : List Char → Option Rat) (cs : List Char) :
    (('.' ∈ cleanedMoney cs ∧ ',' ∈ cleanedMoney cs) →
        normalizeMoney cs = ((cleanedMoney cs).filter (fun c => c ≠ '.')).map commaToDot ∧
          ',' ∉ normalizeMoney cs ∧
          (normalizeMoney cs).count '.' = (cleanedMoney cs).count ',') ∧
      ('.' ∉ cleanedMoney cs →
        normalizeMoney cs = (cleanedMoney cs).map commaToDot ∧
          ',' ∉ normalizeMoney cs ∧
          (normalizeMoney cs).count '.' = (cleanedMoney cs).count ',') ∧
      (pyFloat (normalizeMoney cs) = none → convert_to_float pyFloat cs = 0) := by
  refine ⟨fun hboth => ?_, fun hnodot => ?_, fun hfail => ?_⟩
  · have hn : normalizeMoney cs
        = ((cleanedMoney cs).filter (fun c => c ≠ '.')).map commaToDot := by
      rw [normalizeMoney]
      rw [if_pos hboth]
    refine ⟨hn, ?_, ?_⟩
    · rw [hn]
      exact comma_not_mem_map_commaToDot _
    · rw [hn, count_dot_map_commaToDot, count_comma_filter_ne_dot, count_dot_filter_ne_dot,
        Nat.add_zero]
  · have hn : normalizeMoney cs = (cleanedMoney cs).map commaToDot := by
      rw [normalizeMoney]
      rw [if_neg (fun h => hnodot h.1)]
    refine ⟨hn, ?_, ?_⟩
    · rw [hn]
      exact comma_not_mem_map_commaToDot _
    · rw [hn, count_dot_map_commaToDot, List.count_eq_zero_of_not_mem hnodot, Nat.add_zero]
  · rw [convert_to_float, hfail]
    rfl

/-- Claim C8 witness: the three branches checked on concrete strings
("R$ 1.234,56", "3,14", and an unparseable string with a failing parser). -/
theorem convert_to_float_spec_witness :
    (normalizeMoney ("R$ 1.234,56".data)
        = ((cleanedMoney ("R$ 1.234,56".data)).filter (fun c => c ≠ '.')).map commaToDot ∧
      ',' ∉ normalizeMoney ("R$ 1.234,56".data) ∧
      (normalizeMoney ("R$ 1.234,56".data)).count '.' = (cleanedMoney ("R$ 1.234,56".data)).count ',') ∧
      (normalizeMoney ("3,14".data) = (cleanedMoney ("3,14".data)).map commaToDot ∧
        ',' ∉ normalizeMoney ("3,14".data) ∧
        (normalizeMoney ("3,14".data)).count '.' = (cleanedMoney ("3,14".data)).count ',') ∧
      convert_to_float (fun _ => none) ("abc".data) = 0 :=
  ⟨(convert_to_float_spec (fun _ => none) _).1 (by decide),
    (convert_to_float_spec (fun _ => none) _).2.1 (by decide),
    (convert_to_float_spec (fun _ => none) _).2.2 rfl⟩

end StockUtils
